import Mathlib

/-! # ClickHouse: `h3EdgeAngle` and the S3 data-lake metadata helper

Shallow embedding of

* `src/Functions/h3EdgeAngle.cpp` (class `FunctionH3EdgeAngle`):
  `getNumberOfArguments`, `getReturnTypeImpl`, `executeImpl`;
* `src/Storages/S3DataLakeMetaReadHelper.h` (struct `S3DataLakeMetaReadHelper`):
  the header only declares `listFiles` and `listFilesMatchSuffix`, their bodies
  are modelled from the specification.

Conventions: a C++ exception is an `Except` error carrying the error code and
the rendered message; a read outside an array (undefined behaviour in C++) is a
separate failure constructor, so that theorems can say it is never reached.
`Float64` arithmetic is abstracted by `Float64Model`, with the exact rationals
as one instance.
-/

namespace DB

/-! ## Error codes and failures -/

/-- The two entries of `namespace ErrorCodes` the function refers to. -/
inductive ErrorCode
  | ILLEGAL_TYPE_OF_ARGUMENT
  | ARGUMENT_OUT_OF_BOUND
  deriving DecidableEq, Repr

/-- Ways in which a call can fail to return a value. -/
inductive Failure
  /-- A `throw Exception(code, fmt, args...)`: the code and the rendered message. -/
  | exception (code : ErrorCode) (message : String)
  /-- Read of `arguments[0]` or of a column row that does not exist. -/
  | rowOutOfBounds
  /-- Call of `getHexagonEdgeLengthAvgM` with an index outside its 16-entry table. -/
  | tableIndexOutOfBounds (index : Int)
  deriving DecidableEq, Repr

/-! ## Message formatting (`fmt::format` with `{}` placeholders) -/

/-- Number of `{}` placeholders of a format string. -/
def countPlaceholders : List Char → Nat
  | [] => 0
  | [_] => 0
  | c :: d :: rest =>
    if c = '\x7b' ∧ d = '\x7d' then countPlaceholders rest + 1
    else countPlaceholders (d :: rest)

/-- Rendering of a format string: the k-th `{}` is replaced by the k-th
argument; arguments beyond the last placeholder are not rendered (this is what
`fmt::format` does with surplus arguments), a placeholder beyond the last
argument renders nothing. -/
def formatChars : List Char → List String → List Char
  | [], _ => []
  | [c], _ => [c]
  | c :: d :: rest, args =>
    if c = '\x7b' ∧ d = '\x7d' then
      match args with
      | [] => formatChars rest []
      | a :: more => a.data ++ formatChars rest more
    else c :: formatChars (d :: rest) args

/-- The message of `Exception(code, fmt, args...)`. -/
def formatMessage (fmt : String) (args : List String) : String :=
  String.mk (formatChars fmt.data args)

/-! ## The H3 library (`constants.h`, `h3api.h`) -/

/-- H3 `constants.h`: `#define MAX_H3_RES 15`, the finest resolution. -/
def MAX_H3_RES : Int := 15

/-- H3 `constants.h`: `EARTH_RADIUS_KM 6371.007180918475`, here in metres. -/
def EARTH_RADIUS_M : ℚ := 6371007.180918475

/-- The table `lens` of H3 `getHexagonEdgeLengthAvgM`: average hexagon edge
length in metres at resolutions 0 to 15, as decimal literals. -/
def hexagonEdgeLengthAvgM_lens : List ℚ :=
  [1107712.591, 418676.0055, 158244.6558, 59810.85794,
   22606.3794, 8544.408276, 3229.482772, 1220.629759,
   461.3546837, 174.3756681, 65.90780749, 24.9105614,
   9.415526211, 3.559893033, 1.348574562, 0.509713273]

/-- What the function needs of `Float64`: a carrier, the product, and the value
a decimal literal of the source denotes. -/
structure Float64Model where
  /-- Carrier of the values. -/
  F : Type
  /-- The product `a * b`. -/
  mul : F → F → F
  /-- Value of a decimal literal. -/
  lit : ℚ → F

/-- Exact arithmetic: literals denote themselves and the product is exact. -/
def exactModel : Float64Model := ⟨ℚ, fun a b => a * b, fun q => q⟩

/-- H3 `double getHexagonEdgeLengthAvgM(int res) { return lens[res]; }`; an
index outside the table is reported instead of read. -/
def getHexagonEdgeLengthAvgM (M : Float64Model) (res : Int) : Except Failure M.F :=
  if 0 ≤ res then
    match hexagonEdgeLengthAvgM_lens[res.toNat]? with
    | some len => .ok (M.lit len)
    | none => .error (.tableIndexOutOfBounds res)
  else .error (.tableIndexOutOfBounds res)

/-! ## Columns and data types -/

/-- A numeric column seen through `IColumn::getUInt`: the stored unsigned
value of every row. -/
structure IColumn where
  /-- Stored values, row by row. -/
  data : List Nat

/-- The `UInt64` returned by `getUInt(n)`; `none` when row `n` does not exist. -/
def IColumn.getUInt (c : IColumn) (n : Nat) : Option Nat :=
  match c.data[n]? with
  | some v => some (v % 2 ^ 64)
  | none => none

/-- Number of rows of the column. -/
def IColumn.size (c : IColumn) : Nat := c.data.length

/-- The column is a `ColumnUInt8`: every stored value fits in 8 bits. -/
def IColumn.isUInt8 (c : IColumn) : Prop := ∀ v ∈ c.data, v < 256

instance (c : IColumn) : Decidable c.isUInt8 := by
  unfold IColumn.isUInt8; infer_instance

/-- Conversion `UInt64 → int` of `const int resolution = col->getUInt(row)`:
the low 32 bits read as a two's complement number. -/
def narrowToInt (u : Nat) : Int :=
  if u % 2 ^ 32 < 2 ^ 31 then ((u % 2 ^ 32 : Nat) : Int)
  else ((u % 2 ^ 32 : Nat) : Int) - 2 ^ 32

/-- Type ids of `WhichDataType` (declared in `Core/Types.h`). -/
inductive TypeIndex
  | Nothing | UInt8 | UInt16 | UInt32 | UInt64 | UInt128 | UInt256
  | Int8 | Int16 | Int32 | Int64 | Int128 | Int256
  | Float32 | Float64 | Date | Date32 | DateTime | DateTime64
  | String | FixedString | Enum8 | Enum16
  | Decimal32 | Decimal64 | Decimal128 | Decimal256
  | UUID | Array | Tuple | Set | Interval | Nullable | Function
  | AggregateFunction | LowCardinality | Map | Object
  deriving DecidableEq, Repr

/-- A data type: its type id and the name `getName()` prints. -/
structure IDataType where
  /-- The `TypeIndex` that `WhichDataType` inspects. -/
  idx : TypeIndex
  /-- Result of `getName()`. -/
  name : String
  deriving DecidableEq, Repr

/-- The result of `WhichDataType(arg).isUInt8()`. -/
def WhichDataType.isUInt8 (arg : IDataType) : Bool := arg.idx == TypeIndex.UInt8

/-- The result of `std::make_shared<DataTypeFloat64>()`. -/
def DataTypeFloat64 : IDataType := ⟨TypeIndex.Float64, "Float64"⟩

/-! ## `FunctionH3EdgeAngle` -/

namespace FunctionH3EdgeAngle

/-- The member `static constexpr auto name = "h3EdgeAngle"`. -/
def name : String := "h3EdgeAngle"

/-- The method `getName()`. -/
def getName : String := name

/-- The method `getNumberOfArguments()`. -/
def getNumberOfArguments : Nat := 1

/-- The method `getReturnTypeImpl(arguments)`. -/
def getReturnTypeImpl (arguments : List IDataType) : Except Failure IDataType :=
  match arguments[0]? with
  | none => .error .rowOutOfBounds
  | some arg =>
    if !WhichDataType.isUInt8 arg then
      .error (.exception .ILLEGAL_TYPE_OF_ARGUMENT
        (formatMessage "Illegal type \x7b\x7d of argument \x7b\x7d of function \x7b\x7d. Must be UInt8"
          [arg.name, toString (1 : Nat), getName]))
    else .ok DataTypeFloat64

/-- The format string of the exception thrown by `executeImpl`. -/
def outOfBoundFormat : String :=
  "The argument \x27resolution\x27 (\x7b\x7d) of function \x7b\x7d is out of bounds because the maximum resolution in H3 library is "

/-- The three arguments passed to the exception of `executeImpl`, rendered. -/
def outOfBoundArgs (resolution : Int) : List String :=
  [toString resolution, getName, toString MAX_H3_RES]

/-- The multiplier written in `executeImpl`. -/
def edgeAngleFactor : ℚ := 8.99320592271288084e-6

/-- Body of the loop of `executeImpl` for one `row`. -/
def executeRow (M : Float64Model) (col_hindex : IColumn) (row : Nat) : Except Failure M.F :=
  match col_hindex.getUInt row with
  | none => .error .rowOutOfBounds
  | some u =>
    let resolution : Int := narrowToInt u
    if resolution > MAX_H3_RES then
      .error (.exception .ARGUMENT_OUT_OF_BOUND
        (formatMessage outOfBoundFormat (outOfBoundArgs resolution)))
    else
      match getHexagonEdgeLengthAvgM M resolution with
      | .error e => .error e
      | .ok len => .ok (M.mul (M.lit edgeAngleFactor) len)

/-- The loop `for (const auto row : collections::range(0, input_rows_count))`
over the rows still to do; the values written to `dst_data`, in row order. -/
def executeRows (M : Float64Model) (col_hindex : IColumn) : List Nat → Except Failure (List M.F)
  | [] => .ok []
  | row :: rest =>
    match executeRow M col_hindex row with
    | .error e => .error e
    | .ok res =>
      match executeRows M col_hindex rest with
      | .error e => .error e
      | .ok dst => .ok (res :: dst)

/-- The method `executeImpl(arguments, _, input_rows_count)` with
`col_hindex = arguments[0].column`. -/
def executeImpl (M : Float64Model) (col_hindex : IColumn) (input_rows_count : Nat) :
    Except Failure (List M.F) :=
  executeRows M col_hindex (List.range input_rows_count)

end FunctionH3EdgeAngle

/-! ## `S3DataLakeMetaReadHelper`

The header declares `listFilesMatchSuffix` and `listFiles` without bodies. The
definitions of this section follow the specification of the listing contract.
-/

/-- Modelled from the spec: an `ObjectKey`, "a string identifying one remote
object uniquely within a bucket" (the `String` elements of the result vectors
declared in the header). -/
abbrev ObjectKey := String

/-- Modelled from the spec: the "optional continuation token" a listing
response carries. -/
abbrev ContinuationToken := String

/-- Modelled from the spec: a `Location`, "a bucket/container identifier and a
path prefix (the directory)"; it stands for the `StorageS3::Configuration`
argument of the declared operations. -/
structure Location where
  /-- Bucket identifier. -/
  bucket : String
  /-- Path under which objects are listed. -/
  directory : String
  deriving DecidableEq, Repr

/-- Modelled from the spec: one response of the store, "a page of keys plus an
optional continuation token". -/
structure ListingPage where
  /-- Keys of the page, in the order of the store. -/
  keys : List ObjectKey
  /-- Token for the follow-up request, if there is a further page. -/
  continuationToken : Option ContinuationToken
  deriving DecidableEq, Repr

/-- Modelled from the spec: the remote object store as the capability "list
objects under prefix, paginated with continuation tokens": the answer to a
request for a location with an optional token, `none` when the page request
fails (network, auth, not-found-bucket). -/
abbrev RemoteStore := Location → Option ContinuationToken → Option ListingPage

/-- Modelled from the spec: how an operation of the lister ends: the
materialised keys, a `RemoteListingError`, or (in the model only) a loop that
was still following tokens when the step budget ran out. -/
inductive ListingOutcome
  | keys (ks : List ObjectKey)
  | remoteListingError
  | unfinished
  deriving DecidableEq, Repr

/-- Modelled from the spec: an execution of a listing operation: its outcome
and the requests it issued to the store, in order, each named by the token it
passed. -/
structure ListingRun where
  /-- What the caller receives. -/
  outcome : ListingOutcome
  /-- Requests issued, oldest first. -/
  requests : List (Option ContinuationToken)
  deriving DecidableEq, Repr

namespace S3DataLakeMetaReadHelper

/-- Modelled from the spec: the pagination loop of `listFiles` (its body is not
in the header), an explicit state machine over the token: "keeps issuing
follow-up requests, passing the continuation token forward, until a response
carries no continuation token", accumulating "all keys across pages, in the
order returned by the store"; a failed page request ends the operation with a
`RemoteListingError` and no keys. `fuel` bounds the number of requests. -/
def listPages (store : RemoteStore) (location : Location) :
    Nat → Option ContinuationToken → List ObjectKey → List (Option ContinuationToken) → ListingRun
  | 0, _, _, issued => ⟨.unfinished, issued⟩
  | fuel + 1, token, acc, issued =>
    match store location token with
    | none => ⟨.remoteListingError, issued ++ [token]⟩
    | some page =>
      match page.continuationToken with
      | none => ⟨.keys (acc ++ page.keys), issued ++ [token]⟩
      | some next => listPages store location fuel (some next) (acc ++ page.keys) (issued ++ [token])

/-- Modelled from the spec: `listFiles(location)`, whose body is not in the
header: the pagination loop started without a token and with no keys. -/
def listFiles (fuel : Nat) (store : RemoteStore) (location : Location) : ListingRun :=
  listPages store location fuel none [] []

/-- Modelled from the spec: the "final path component" of a key, the characters
after its last path separator (empty for a key that ends in a separator). -/
def finalPathComponent (key : List Char) : List Char :=
  (key.reverse.takeWhile (fun c => c != '/')).reverse

/-- Modelled from the spec: "ends with `suffix` (exact trailing-character
match, case-sensitive, no glob semantics)". -/
def endsWith (s suffix : List Char) : Bool := suffix.isSuffixOf s

/-- Modelled from the spec: the post-filter of `listFilesMatchSuffix`: "a key is
retained only if its final path component ends with `suffix`". -/
def retainsKey (suffix : String) (key : ObjectKey) : Bool :=
  endsWith (finalPathComponent key.data) suffix.data

/-- Modelled from the spec: `listFilesMatchSuffix(location, suffix)`, whose body
is not in the header: "same pagination algorithm as listFiles, with a
post-filter"; result and failure as for `listFiles`. -/
def listFilesMatchSuffix (fuel : Nat) (store : RemoteStore) (location : Location)
    (suffix : String) : ListingRun :=
  match listFiles fuel store location with
  | ⟨.keys ks, issued⟩ => ⟨.keys (ks.filter (retainsKey suffix)), issued⟩
  | run => run

/-- The store answers the listing of `location`, from `token` on, as exactly the
pages `pages` chained by continuation tokens: every page but the last carries a
token, the last carries none. -/
def answersPages (store : RemoteStore) (location : Location) :
    Option ContinuationToken → List (List ObjectKey) → Bool
  | _, [] => false
  | token, p :: rest =>
    match store location token with
    | none => false
    | some page =>
      page.keys == p &&
        match page.continuationToken with
        | none => rest.isEmpty
        | some next => !rest.isEmpty && answersPages store location (some next) rest

/-- The store answers the listing of `location`, from `token` on, with the
pages `pages`, each carrying a continuation token, and the request that follows
them fails. -/
def failsAfterPages (store : RemoteStore) (location : Location) :
    Option ContinuationToken → List (List ObjectKey) → Bool
  | token, [] => (store location token).isNone
  | token, p :: rest =>
    match store location token with
    | none => false
    | some page =>
      page.keys == p &&
        match page.continuationToken with
        | none => false
        | some next => failsAfterPages store location (some next) rest

/-- The location of the scenario of the specification. -/
def lakeLocation : Location := ⟨"lake", "table/metadata/"⟩

/-- A store holding the three keys of the scenario of the specification, served
in one page. -/
def lakeStore : RemoteStore := fun _ token =>
  match token with
  | none => some ⟨["v1.metadata.json", "v2.metadata.json", "manifest/m1.avro"], none⟩
  | some _ => none

/-- The same three keys served as two pages chained by the token `"t1"`. -/
def lakeStorePaged : RemoteStore := fun _ token =>
  match token with
  | none => some ⟨["v1.metadata.json", "v2.metadata.json"], some "t1"⟩
  | some t => if t = "t1" then some ⟨["manifest/m1.avro"], none⟩ else none

/-- A store whose first page is served and whose second page request fails. -/
def lakeStoreBroken : RemoteStore := fun _ token =>
  match token with
  | none => some ⟨["v1.metadata.json", "v2.metadata.json"], some "t1"⟩
  | some _ => none

end S3DataLakeMetaReadHelper

end DB

namespace DB

namespace FunctionH3EdgeAngle

/-! ## Auxiliary facts about `executeImpl` -/

theorem narrowToInt_small (u : Nat) (h : u < 2 ^ 31) : narrowToInt u = (u : Int) := by
  have h32 : u % 2 ^ 32 = u := Nat.mod_eq_of_lt (by omega)
  unfold narrowToInt
  rw [h32, if_pos h]

theorem getUInt_of_isUInt8 (col : IColumn) (h8 : col.isUInt8) (row u : Nat)
    (h : col.getUInt row = some u) : u < 256 ∧ col.data[row]? = some u := by
  unfold IColumn.getUInt at h
  cases hd : col.data[row]? with
  | none => rw [hd] at h; cases h
  | some v =>
    rw [hd] at h
    have hv : v < 256 := h8 v (List.getElem?_mem hd)
    have hmod : v % 2 ^ 64 = v := Nat.mod_eq_of_lt (by omega)
    simp only [hmod, Option.some.injEq] at h
    subst h
    exact ⟨hv, rfl⟩

theorem getUInt_of_lt_size (col : IColumn) (row : Nat) (h : row < col.size) :
    ∃ u, col.getUInt row = some u := by
  unfold IColumn.size at h
  unfold IColumn.getUInt
  rw [List.getElem?_eq_getElem h]
  exact ⟨_, rfl⟩

theorem getHexagonEdgeLengthAvgM_inRange (M : Float64Model) (r : Int) (h0 : 0 ≤ r)
    (h1 : r ≤ MAX_H3_RES) :
    ∃ len, hexagonEdgeLengthAvgM_lens[r.toNat]? = some len ∧
      getHexagonEdgeLengthAvgM M r = .ok (M.lit len) := by
  unfold MAX_H3_RES at h1
  unfold getHexagonEdgeLengthAvgM
  rw [if_pos h0]
  interval_cases r <;> exact ⟨_, rfl, rfl⟩

theorem executeRows_ok (M : Float64Model) (col : IColumn) :
    ∀ (rows : List Nat) (out : List M.F), executeRows M col rows = .ok out →
      out.length = rows.length ∧
      ∀ (i row : Nat), rows[i]? = some row →
        ∃ v, out[i]? = some v ∧ executeRow M col row = .ok v := by
  intro rows
  induction rows with
  | nil =>
    intro out h
    simp only [executeRows, Except.ok.injEq] at h
    subst h
    simp
  | cons r rest ih =>
    intro out h
    unfold executeRows at h
    cases hr : executeRow M col r with
    | error e => rw [hr] at h; cases h
    | ok v =>
      rw [hr] at h
      cases hrest : executeRows M col rest with
      | error e => rw [hrest] at h; cases h
      | ok dst =>
        rw [hrest] at h
        simp only [Except.ok.injEq] at h
        subst h
        obtain ⟨hlen, hrows⟩ := ih dst hrest
        refine ⟨by simp [hlen], ?_⟩
        intro i row hi
        cases i with
        | zero =>
          simp only [List.getElem?_cons_zero, Option.some.injEq] at hi
          subst hi
          exact ⟨v, by simp, hr⟩
        | succ j =>
          simp only [List.getElem?_cons_succ] at hi ⊢
          exact hrows j row hi

theorem executeRows_error (M : Float64Model) (col : IColumn) :
    ∀ (rows : List Nat) (e : Failure), executeRows M col rows = .error e →
      ∃ row ∈ rows, executeRow M col row = .error e := by
  intro rows
  induction rows with
  | nil => intro e h; simp [executeRows] at h
  | cons r rest ih =>
    intro e h
    unfold executeRows at h
    cases hr : executeRow M col r with
    | error e1 =>
      rw [hr] at h
      simp only [Except.error.injEq] at h
      subst h
      exact ⟨r, by simp, hr⟩
    | ok v =>
      rw [hr] at h
      cases hrest : executeRows M col rest with
      | error e1 =>
        rw [hrest] at h
        simp only [Except.error.injEq] at h
        subst h
        obtain ⟨row, hmem, hrow⟩ := ih e1 hrest
        exact ⟨row, by simp [hmem], hrow⟩
      | ok dst => rw [hrest] at h; cases h

theorem executeRows_total (M : Float64Model) (col : IColumn) :
    ∀ (rows : List Nat), (∀ row ∈ rows, ∃ v, executeRow M col row = .ok v) →
      ∃ out, executeRows M col rows = .ok out := by
  intro rows
  induction rows with
  | nil => intro _; exact ⟨[], rfl⟩
  | cons r rest ih =>
    intro h
    obtain ⟨v, hv⟩ := h r (by simp)
    obtain ⟨dst, hdst⟩ := ih (fun row hrow => h row (by simp [hrow]))
    exact ⟨v :: dst, by simp [executeRows, hv, hdst]⟩

/-- What the loop body does on a row of a `ColumnUInt8` holding `u`. -/
theorem executeRow_of_isUInt8 (M : Float64Model) (col : IColumn) (h8 : col.isUInt8)
    (row u : Nat) (h : col.getUInt row = some u) :
    (MAX_H3_RES < (u : Int) →
      executeRow M col row = .error (.exception .ARGUMENT_OUT_OF_BOUND
        (formatMessage outOfBoundFormat (outOfBoundArgs (u : Int))))) ∧
    ((u : Int) ≤ MAX_H3_RES → ∃ len, getHexagonEdgeLengthAvgM M (u : Int) = .ok len ∧
      executeRow M col row = .ok (M.mul (M.lit edgeAngleFactor) len)) := by
  have hu := (getUInt_of_isUInt8 col h8 row u h).1
  have hn : narrowToInt u = (u : Int) := narrowToInt_small u (by omega)
  constructor
  · intro hgt
    unfold executeRow
    simp only [h, hn]
    rw [if_pos hgt]
  · intro hle
    obtain ⟨len, _, hlen⟩ := getHexagonEdgeLengthAvgM_inRange M (u : Int) (by omega) hle
    refine ⟨M.lit len, hlen, ?_⟩
    unfold executeRow
    simp only [h, hn]
    rw [if_neg (by omega), hlen]

theorem executeImpl_error_of_isUInt8 (M : Float64Model) (col : IColumn) (h8 : col.isUInt8)
    (e : Failure) (h : executeImpl M col col.size = .error e) :
    (∃ msg, e = .exception .ARGUMENT_OUT_OF_BOUND msg) ∧ ∃ v ∈ col.data, MAX_H3_RES < (v : Int) := by
  obtain ⟨row, hmem, hrow⟩ := executeRows_error M col _ e h
  have hlt : row < col.size := List.mem_range.mp hmem
  obtain ⟨u, hu⟩ := getUInt_of_lt_size col row hlt
  have hdata := (getUInt_of_isUInt8 col h8 row u hu).2
  obtain ⟨hbig, hsmall⟩ := executeRow_of_isUInt8 M col h8 row u hu
  by_cases hgt : MAX_H3_RES < (u : Int)
  · rw [hbig hgt] at hrow
    simp only [Except.error.injEq] at hrow
    exact ⟨⟨_, hrow.symm⟩, u, List.getElem?_mem hdata, hgt⟩
  · obtain ⟨len, _, hok⟩ := hsmall (by omega)
    rw [hok] at hrow
    cases hrow

theorem executeImpl_ok_of_isUInt8 (M : Float64Model) (col : IColumn) (h8 : col.isUInt8)
    (out : List M.F) (h : executeImpl M col col.size = .ok out) :
    ∀ v ∈ col.data, (v : Int) ≤ MAX_H3_RES := by
  intro v hv
  obtain ⟨row, hrow⟩ := List.mem_iff_getElem?.mp hv
  have hlt : row < col.data.length := by
    by_contra hge
    rw [List.getElem?_eq_none (by omega)] at hrow
    cases hrow
  have hrange : (List.range col.size)[row]? = some row := by
    unfold IColumn.size
    rw [List.getElem?_range hlt]
  obtain ⟨w, _, hw⟩ := (executeRows_ok M col _ out h).2 row row hrange
  have hget : col.getUInt row = some v := by
    have hv8 : v < 256 := h8 v hv
    unfold IColumn.getUInt
    rw [hrow]
    simp only [Option.some.injEq]
    exact Nat.mod_eq_of_lt (by omega)
  by_contra hgt
  rw [(executeRow_of_isUInt8 M col h8 row v hget).1 (by omega)] at hw
  cases hw

theorem executeImpl_total_of_isUInt8 (M : Float64Model) (col : IColumn) (h8 : col.isUInt8)
    (hall : ∀ v ∈ col.data, (v : Int) ≤ MAX_H3_RES) :
    ∃ out, executeImpl M col col.size = .ok out := by
  apply executeRows_total
  intro row hmem
  have hlt : row < col.size := List.mem_range.mp hmem
  obtain ⟨u, hu⟩ := getUInt_of_lt_size col row hlt
  have hdata := (getUInt_of_isUInt8 col h8 row u hu).2
  obtain ⟨len, _, hok⟩ :=
    (executeRow_of_isUInt8 M col h8 row u hu).2 (hall u (List.getElem?_mem hdata))
  exact ⟨_, hok⟩

/-! ## The claims about `h3EdgeAngle` -/

/-- C1: on a column of UInt8 resolutions (with `input_rows_count` its number of
rows) `executeImpl` throws `ARGUMENT_OUT_OF_BOUND` exactly when some row holds a
resolution greater than `MAX_H3_RES`; it returns a column exactly when every
row is at most `MAX_H3_RES`, so no value is produced from an out-of-range
resolution; it has no other way to fail; and resolution `MAX_H3_RES + 1`
fails. -/
theorem executeImpl_out_of_bound_iff (M : Float64Model) (col : IColumn) (h8 : col.isUInt8) :
    ((∃ msg, executeImpl M col col.size = .error (.exception .ARGUMENT_OUT_OF_BOUND msg)) ↔
        ∃ v ∈ col.data, MAX_H3_RES < (v : Int)) ∧
    ((∃ out, executeImpl M col col.size = .ok out) ↔ ∀ v ∈ col.data, (v : Int) ≤ MAX_H3_RES) ∧
    (∀ e, executeImpl M col col.size = .error e →
        ∃ msg, e = .exception .ARGUMENT_OUT_OF_BOUND msg) ∧
    (∃ msg, executeImpl M ⟨[(MAX_H3_RES + 1).toNat]⟩ 1 =
        .error (.exception .ARGUMENT_OUT_OF_BOUND msg)) := by
  refine ⟨⟨?_, ?_⟩, ⟨?_, ?_⟩, ?_, ⟨_, rfl⟩⟩
  · rintro ⟨msg, h⟩
    exact (executeImpl_error_of_isUInt8 M col h8 _ h).2
  · rintro ⟨v, hv, hgt⟩
    cases h : executeImpl M col col.size with
    | error e =>
      obtain ⟨⟨msg, hmsg⟩, _⟩ := executeImpl_error_of_isUInt8 M col h8 e h
      exact ⟨msg, by rw [hmsg]⟩
    | ok out =>
      have := executeImpl_ok_of_isUInt8 M col h8 out h v hv
      omega
  · rintro ⟨out, h⟩
    exact executeImpl_ok_of_isUInt8 M col h8 out h
  · exact executeImpl_total_of_isUInt8 M col h8
  · intro e h
    exact (executeImpl_error_of_isUInt8 M col h8 e h).1

/-- Witness of C1: the UInt8 column `[3, 16]` fails with `ARGUMENT_OUT_OF_BOUND`. -/
theorem executeImpl_out_of_bound_iff_witness :
    IColumn.isUInt8 ⟨[3, 16]⟩ ∧
    ∃ msg, executeImpl exactModel ⟨[3, 16]⟩ (IColumn.size ⟨[3, 16]⟩) =
      .error (.exception .ARGUMENT_OUT_OF_BOUND msg) :=
  ⟨by decide,
    (executeImpl_out_of_bound_iff exactModel ⟨[3, 16]⟩ (by decide)).1.2
      ⟨16, by simp, by decide⟩⟩

/-- C4: when `executeImpl` returns, the result has `input_rows_count` rows, row
`i` is the product of the multiplier and `getHexagonEdgeLengthAvgM` of the
resolution read from input row `i`, and two runs whose columns agree at row `i`
agree at output row `i`, whatever the other rows and the lengths are. -/
theorem executeImpl_rows_independent (M : Float64Model) (col : IColumn)
    (input_rows_count : Nat) (out : List M.F)
    (h : executeImpl M col input_rows_count = .ok out) :
    out.length = input_rows_count ∧
    (∀ i : Nat, i < input_rows_count → ∃ u len, col.getUInt i = some u ∧
        getHexagonEdgeLengthAvgM M (narrowToInt u) = .ok len ∧
        out[i]? = some (M.mul (M.lit edgeAngleFactor) len)) ∧
    (∀ (col2 : IColumn) (n2 : Nat) (out2 : List M.F), executeImpl M col2 n2 = .ok out2 →
        ∀ i : Nat, i < input_rows_count → i < n2 → col.getUInt i = col2.getUInt i →
          out[i]? = out2[i]?) := by
  have key : ∀ (c : IColumn) (n : Nat) (o : List M.F), executeImpl M c n = .ok o →
      ∀ i : Nat, i < n → ∃ u len, c.getUInt i = some u ∧
        getHexagonEdgeLengthAvgM M (narrowToInt u) = .ok len ∧
        o[i]? = some (M.mul (M.lit edgeAngleFactor) len) := by
    intro c n o ho i hi
    obtain ⟨v, hv, hrow⟩ := (executeRows_ok M c _ o ho).2 i i (List.getElem?_range hi)
    unfold executeRow at hrow
    cases hu : c.getUInt i with
    | none => rw [hu] at hrow; cases hrow
    | some u =>
      rw [hu] at hrow
      simp only at hrow
      by_cases hgt : narrowToInt u > MAX_H3_RES
      · rw [if_pos hgt] at hrow; cases hrow
      · rw [if_neg hgt] at hrow
        cases hlen : getHexagonEdgeLengthAvgM M (narrowToInt u) with
        | error e => rw [hlen] at hrow; cases hrow
        | ok len =>
          rw [hlen] at hrow
          simp only [Except.ok.injEq] at hrow
          exact ⟨u, len, rfl, hlen, by rw [hv, hrow]⟩
  refine ⟨?_, key col input_rows_count out h, ?_⟩
  · rw [(executeRows_ok M col _ out h).1, List.length_range]
  · intro col2 n2 out2 h2 i hi hi2 hsame
    obtain ⟨u, len, hu, hlen, ho⟩ := key col input_rows_count out h i hi
    obtain ⟨u2, len2, hu2, hlen2, ho2⟩ := key col2 n2 out2 h2 i hi2
    rw [hsame, hu2] at hu
    simp only [Option.some.injEq] at hu
    subst hu
    rw [hlen] at hlen2
    simp only [Except.ok.injEq] at hlen2
    subst hlen2
    rw [ho, ho2]

/-- Witness of C4: the column `[0, 15]` with two rows. -/
theorem executeImpl_rows_independent_witness :
    (executeImpl exactModel ⟨[0, 15]⟩ 2 =
        .ok [edgeAngleFactor * 1107712.591, edgeAngleFactor * 0.509713273]) ∧
    List.length [edgeAngleFactor * (1107712.591 : ℚ), edgeAngleFactor * 0.509713273] = 2 :=
  ⟨rfl, (executeImpl_rows_independent exactModel ⟨[0, 15]⟩ 2
    [edgeAngleFactor * 1107712.591, edgeAngleFactor * 0.509713273] rfl).1⟩

/-- C5: the multiplier of `executeImpl` is 180 / (pi * R) for the H3 Earth
radius R in metres, up to the precision of the written constant: over the reals
`edgeAngleFactor * pi * R` exceeds 180 by less than 9e-15 (a relative error
below 2^-53, half a unit in the last place of a Float64). -/
theorem edgeAngleFactor_degrees_per_metre :
    0 < (edgeAngleFactor : ℝ) * Real.pi * (EARTH_RADIUS_M : ℝ) - 180 ∧
    |(edgeAngleFactor : ℝ) * Real.pi * (EARTH_RADIUS_M : ℝ) - 180| < 9 / 10 ^ 15 ∧
    (9 : ℝ) / 10 ^ 15 < 180 / 2 ^ 53 := by
  have hlo := Real.pi_gt_d20
  have hhi := Real.pi_lt_d20
  have hpos : 0 < (edgeAngleFactor : ℝ) * Real.pi * (EARTH_RADIUS_M : ℝ) - 180 := by
    unfold edgeAngleFactor EARTH_RADIUS_M
    push_cast
    norm_num at hlo ⊢
    linarith
  refine ⟨hpos, ?_, by norm_num⟩
  rw [abs_of_pos hpos]
  unfold edgeAngleFactor EARTH_RADIUS_M
  push_cast
  norm_num at hhi ⊢
  linarith

/-- C6: for every resolution `r` in `[0, MAX_H3_RES]` the exact value of
`h3EdgeAngle` is the multiplier times the table entry of `r` and is positive;
it lies between 4e-6 and 10, far inside the range of finite Float64 values. -/
theorem h3EdgeAngle_positive (r : Nat) (hr : (r : Int) ≤ MAX_H3_RES) :
    ∃ len : ℚ, hexagonEdgeLengthAvgM_lens[r]? = some len ∧
      executeImpl exactModel ⟨[r]⟩ 1 = .ok [edgeAngleFactor * len] ∧
      0 < edgeAngleFactor * len ∧
      4 / 10 ^ 6 < edgeAngleFactor * len ∧ edgeAngleFactor * len < 10 := by
  unfold MAX_H3_RES at hr
  have hr15 : r ≤ 15 := by omega
  interval_cases r <;>
    exact ⟨_, rfl, rfl, by norm_num [edgeAngleFactor, hexagonEdgeLengthAvgM_lens],
      by norm_num [edgeAngleFactor, hexagonEdgeLengthAvgM_lens],
      by norm_num [edgeAngleFactor, hexagonEdgeLengthAvgM_lens]⟩

/-- Witness of C6: resolution 0. -/
theorem h3EdgeAngle_positive_witness :
    ((0 : Nat) : Int) ≤ MAX_H3_RES ∧
    ∃ len : ℚ, hexagonEdgeLengthAvgM_lens[0]? = some len ∧
      executeImpl exactModel ⟨[0]⟩ 1 = .ok [edgeAngleFactor * len] ∧
      0 < edgeAngleFactor * len ∧
      4 / 10 ^ 6 < edgeAngleFactor * len ∧ edgeAngleFactor * len < 10 :=
  ⟨by decide, h3EdgeAngle_positive 0 (by decide)⟩

/-- C8: the function takes one argument; `getReturnTypeImpl` returns Float64
exactly when the argument type is UInt8 and throws `ILLEGAL_TYPE_OF_ARGUMENT`
exactly when it is any other type, other integer types included; there is no
third outcome. -/
theorem getReturnTypeImpl_accepts_exactly_UInt8 :
    getNumberOfArguments = 1 ∧ DataTypeFloat64.idx = TypeIndex.Float64 ∧
    (∀ arg : IDataType,
      (getReturnTypeImpl [arg] = .ok DataTypeFloat64 ↔ arg.idx = TypeIndex.UInt8) ∧
      ((∃ msg, getReturnTypeImpl [arg] = .error (.exception .ILLEGAL_TYPE_OF_ARGUMENT msg)) ↔
        arg.idx ≠ TypeIndex.UInt8) ∧
      (getReturnTypeImpl [arg] = .ok DataTypeFloat64 ∨
        ∃ msg, getReturnTypeImpl [arg] = .error (.exception .ILLEGAL_TYPE_OF_ARGUMENT msg))) ∧
    getReturnTypeImpl [⟨TypeIndex.UInt64, "UInt64"⟩] =
      .error (.exception .ILLEGAL_TYPE_OF_ARGUMENT
        "Illegal type UInt64 of argument 1 of function h3EdgeAngle. Must be UInt8") ∧
    getReturnTypeImpl [⟨TypeIndex.Int8, "Int8"⟩] =
      .error (.exception .ILLEGAL_TYPE_OF_ARGUMENT
        "Illegal type Int8 of argument 1 of function h3EdgeAngle. Must be UInt8") := by
  refine ⟨rfl, rfl, ?_, rfl, rfl⟩
  intro arg
  by_cases h : arg.idx = TypeIndex.UInt8
  · have hok : getReturnTypeImpl [arg] = .ok DataTypeFloat64 := by
      simp [getReturnTypeImpl, WhichDataType.isUInt8, h]
    refine ⟨⟨fun _ => h, fun _ => hok⟩, ⟨?_, fun hne => absurd h hne⟩, Or.inl hok⟩
    rintro ⟨msg, hmsg⟩
    rw [hok] at hmsg
    cases hmsg
  · have herr : ∃ msg, getReturnTypeImpl [arg] =
        .error (.exception .ILLEGAL_TYPE_OF_ARGUMENT msg) := by
      refine ⟨formatMessage
        "Illegal type \x7b\x7d of argument \x7b\x7d of function \x7b\x7d. Must be UInt8"
        [arg.name, toString (1 : Nat), getName], ?_⟩
      simp [getReturnTypeImpl, WhichDataType.isUInt8, h]
    refine ⟨⟨?_, fun hh => absurd hh h⟩, ⟨fun _ => h, fun _ => herr⟩, Or.inr herr⟩
    intro hok
    obtain ⟨msg, hmsg⟩ := herr
    rw [hmsg] at hok
    cases hok

/-- C9: on a UInt8 column the conversion of `getUInt(row)` to `int` keeps the
value, so `resolution > MAX_H3_RES` holds exactly when the stored value exceeds
15, a resolution that passes the test is a valid index of the edge-length
table, and `executeImpl` never reaches the table with an index outside it.
Without the UInt8 bound the stored value 2^32 + 3 becomes 3 and passes the
test, and 2^31 becomes negative, passes the test and indexes the table out of
range. -/
theorem resolution_narrowing_lossless (M : Float64Model) (col : IColumn) (h8 : col.isUInt8) :
    (∀ row u : Nat, col.getUInt row = some u →
        narrowToInt u = (u : Int) ∧ (narrowToInt u > MAX_H3_RES ↔ 15 < u) ∧
        (narrowToInt u > MAX_H3_RES ∨
          (0 ≤ narrowToInt u ∧ narrowToInt u ≤ MAX_H3_RES ∧
            ∃ len, getHexagonEdgeLengthAvgM M (narrowToInt u) = .ok len))) ∧
    (∀ (n : Nat) (idx : Int), executeImpl M col n ≠ .error (.tableIndexOutOfBounds idx)) ∧
    (narrowToInt (2 ^ 32 + 3) = 3 ∧ ∃ out, executeImpl M ⟨[2 ^ 32 + 3]⟩ 1 = .ok out) ∧
    (narrowToInt (2 ^ 31) = -2 ^ 31 ∧
      executeImpl M ⟨[2 ^ 31]⟩ 1 = .error (.tableIndexOutOfBounds (-2 ^ 31))) := by
  refine ⟨?_, ?_, ⟨by decide, _, rfl⟩, ⟨by decide, rfl⟩⟩
  · intro row u hu
    have hlt := (getUInt_of_isUInt8 col h8 row u hu).1
    have hn : narrowToInt u = (u : Int) := narrowToInt_small u (by omega)
    rw [hn]
    refine ⟨rfl, ?_, ?_⟩
    · unfold MAX_H3_RES; omega
    · by_cases hgt : MAX_H3_RES < (u : Int)
      · exact Or.inl hgt
      · obtain ⟨len, _, hlen⟩ := getHexagonEdgeLengthAvgM_inRange M (u : Int) (by omega) (by omega)
        exact Or.inr ⟨by omega, by omega, _, hlen⟩
  · intro n idx h
    obtain ⟨row, _, hrow⟩ := executeRows_error M col _ _ h
    cases hu : col.getUInt row with
    | none =>
      unfold executeRow at hrow
      rw [hu] at hrow
      cases hrow
    | some u =>
      obtain ⟨hbig, hsmall⟩ := executeRow_of_isUInt8 M col h8 row u hu
      by_cases hgt : MAX_H3_RES < (u : Int)
      · rw [hbig hgt] at hrow
        cases hrow
      · obtain ⟨len, _, hok⟩ := hsmall (by omega)
        rw [hok] at hrow
        cases hrow

/-- Witness of C9: the UInt8 column `[7, 200]`. -/
theorem resolution_narrowing_lossless_witness :
    IColumn.isUInt8 ⟨[7, 200]⟩ ∧
    ∀ (n : Nat) (idx : Int),
      executeImpl exactModel ⟨[7, 200]⟩ n ≠ .error (.tableIndexOutOfBounds idx) :=
  ⟨by decide, (resolution_narrowing_lossless exactModel ⟨[7, 200]⟩ (by decide)).2.1⟩

/-- C10 (evaluation at the failing input): for the one-row column `[16]`
`executeImpl` throws `ARGUMENT_OUT_OF_BOUND`; three arguments are passed to the
exception, `16`, `h3EdgeAngle` and `15`, but the format string has only two
placeholders, and the rendered message ends after "library is " without the
maximum resolution. -/
theorem executeImpl_message_omits_max_resolution :
    executeImpl exactModel ⟨[16]⟩ 1 =
      .error (.exception .ARGUMENT_OUT_OF_BOUND
        "The argument \x27resolution\x27 (16) of function h3EdgeAngle is out of bounds because the maximum resolution in H3 library is ") ∧
    outOfBoundArgs 16 = ["16", "h3EdgeAngle", "15"] ∧
    countPlaceholders outOfBoundFormat.data = 2 ∧
    (outOfBoundArgs 16).length = 3 :=
  ⟨rfl, by decide, by decide, by decide⟩

end FunctionH3EdgeAngle

end DB

namespace DB

namespace S3DataLakeMetaReadHelper

/-! ## Auxiliary facts about the listing loop -/

theorem listPages_of_answersPages (store : RemoteStore) (location : Location) :
    ∀ (pages : List (List ObjectKey)) (fuel : Nat) (token : Option ContinuationToken)
      (acc : List ObjectKey) (issued : List (Option ContinuationToken)),
      answersPages store location token pages = true → pages.length ≤ fuel →
      (listPages store location fuel token acc issued).outcome = .keys (acc ++ pages.flatten) ∧
      (listPages store location fuel token acc issued).requests.length =
        issued.length + pages.length := by
  intro pages
  induction pages with
  | nil => intro fuel token acc issued h; simp [answersPages] at h
  | cons p rest ih =>
    intro fuel token acc issued h hfuel
    cases fuel with
    | zero => simp at hfuel
    | succ fuel =>
      unfold answersPages at h
      unfold listPages
      cases hs : store location token with
      | none => rw [hs] at h; simp at h
      | some page =>
        rw [hs] at h
        simp only [Bool.and_eq_true, beq_iff_eq] at h
        obtain ⟨hkeys, hnext⟩ := h
        cases hc : page.continuationToken with
        | none =>
          rw [hc] at hnext
          simp only [List.isEmpty_eq_true] at hnext
          subst hnext
          simp [hkeys, hc]
        | some next =>
          rw [hc] at hnext
          simp only [Bool.and_eq_true] at hnext
          have hlen : rest.length ≤ fuel := by simpa using hfuel
          obtain ⟨hout, hreq⟩ := ih fuel (some next) (acc ++ page.keys) (issued ++ [token])
            hnext.2 hlen
          simp only [hc, hout, hreq]
          subst hkeys
          constructor
          · simp
          · simp; omega

theorem listPages_of_failsAfterPages (store : RemoteStore) (location : Location) :
    ∀ (pages : List (List ObjectKey)) (fuel : Nat) (token : Option ContinuationToken)
      (acc : List ObjectKey) (issued : List (Option ContinuationToken)),
      failsAfterPages store location token pages = true → pages.length < fuel →
      (listPages store location fuel token acc issued).outcome = .remoteListingError ∧
      (listPages store location fuel token acc issued).requests.length =
        issued.length + pages.length + 1 := by
  intro pages
  induction pages with
  | nil =>
    intro fuel token acc issued h hfuel
    cases fuel with
    | zero => simp at hfuel
    | succ fuel =>
      unfold failsAfterPages at h
      unfold listPages
      cases hs : store location token with
      | none => simp
      | some page => rw [hs] at h; simp at h
  | cons p rest ih =>
    intro fuel token acc issued h hfuel
    cases fuel with
    | zero => simp at hfuel
    | succ fuel =>
      unfold failsAfterPages at h
      unfold listPages
      cases hs : store location token with
      | none => rw [hs] at h; simp at h
      | some page =>
        rw [hs] at h
        simp only [Bool.and_eq_true, beq_iff_eq] at h
        obtain ⟨_, hnext⟩ := h
        cases hc : page.continuationToken with
        | none => rw [hc] at hnext; simp at hnext
        | some next =>
          rw [hc] at hnext
          have hlen : rest.length < fuel := by simpa using hfuel
          obtain ⟨hout, hreq⟩ := ih fuel (some next) (acc ++ page.keys) (issued ++ [token])
            hnext hlen
          simp only [hc, hout, hreq]
          constructor
          · trivial
          · simp; omega

theorem finalPathComponent_endsWith (key : List Char) : endsWith key (finalPathComponent key) = true := by
  unfold endsWith finalPathComponent
  rw [List.isSuffixOf_iff_suffix]
  have hp : List.takeWhile (fun c => c != '/') key.reverse <+: key.reverse :=
    List.takeWhile_prefix _
  obtain ⟨t, ht⟩ := hp
  refine ⟨t.reverse, ?_⟩
  have := congrArg List.reverse ht
  simpa using this

theorem endsWith_trans (a b c : List Char) (hab : endsWith a b = true) (hbc : endsWith b c = true) :
    endsWith a c = true := by
  unfold endsWith at *
  rw [List.isSuffixOf_iff_suffix] at *
  exact List.IsSuffix.trans hbc hab

theorem finalPathComponent_keeps_suffix (key suffix : List Char) (hsep : '/' ∉ suffix)
    (h : endsWith key suffix = true) : endsWith (finalPathComponent key) suffix = true := by
  unfold endsWith at *
  rw [List.isSuffixOf_iff_suffix] at *
  obtain ⟨pre, hpre⟩ := h
  subst hpre
  unfold finalPathComponent
  rw [List.reverse_append, List.takeWhile_append_of_pos, List.reverse_append, List.reverse_reverse]
  · exact ⟨_, rfl⟩
  · intro c hc
    have hc2 : c ∈ suffix := List.mem_reverse.mp hc
    simp only [bne_iff_ne, ne_eq]
    intro hEq
    subst hEq
    exact hsep hc2

theorem listFilesMatchSuffix_run (fuel : Nat) (store : RemoteStore) (location : Location)
    (suffix : String) :
    (listFilesMatchSuffix fuel store location suffix).requests =
      (listFiles fuel store location).requests ∧
    (listFilesMatchSuffix fuel store location suffix).outcome =
      match (listFiles fuel store location).outcome with
      | .keys ks => .keys (ks.filter (retainsKey suffix))
      | other => other := by
  unfold listFilesMatchSuffix
  rcases h : listFiles fuel store location with ⟨o, r⟩
  cases o <;> simp

/-! ## The claims about the listing operations -/

/-- C2 (as amended): when the store answers the listing of the location as the
pages `pages`, `listFilesMatchSuffix` returns exactly the listed keys whose
final path component ends with the suffix, in listing order; every returned key
ends with the suffix; and when the suffix contains no path separator, no listed
key ending with the suffix is left out. -/
theorem listFilesMatchSuffix_filters (store : RemoteStore) (location : Location)
    (pages : List (List ObjectKey)) (fuel : Nat) (suffix : String)
    (h : answersPages store location none pages = true) (hfuel : pages.length ≤ fuel) :
    (listFilesMatchSuffix fuel store location suffix).outcome =
      .keys (pages.flatten.filter
        (fun key => endsWith (finalPathComponent key.data) suffix.data)) ∧
    (∀ key ∈ pages.flatten.filter
        (fun key => endsWith (finalPathComponent key.data) suffix.data),
      endsWith key.data suffix.data = true) ∧
    (∀ key ∈ pages.flatten, '/' ∉ suffix.data → endsWith key.data suffix.data = true →
      key ∈ pages.flatten.filter
        (fun key => endsWith (finalPathComponent key.data) suffix.data)) := by
  obtain ⟨hout, _⟩ := listPages_of_answersPages store location pages fuel none [] [] h hfuel
  refine ⟨?_, ?_, ?_⟩
  · rw [(listFilesMatchSuffix_run fuel store location suffix).2]
    unfold listFiles
    rw [hout]
    rfl
  · intro key hkey
    have hret := (List.mem_filter.mp hkey).2
    exact endsWith_trans _ _ _ (finalPathComponent_endsWith key.data) hret
  · intro key hkey hsep hends
    exact List.mem_filter.mpr ⟨hkey, finalPathComponent_keeps_suffix _ _ hsep hends⟩

/-- Witness of C2: the scenario of the specification, suffix `.json`. -/
theorem listFilesMatchSuffix_filters_witness :
    answersPages lakeStore lakeLocation none
      [["v1.metadata.json", "v2.metadata.json", "manifest/m1.avro"]] = true ∧
    (listFilesMatchSuffix 1 lakeStore lakeLocation ".json").outcome =
      .keys ["v1.metadata.json", "v2.metadata.json"] :=
  ⟨by decide,
    (listFilesMatchSuffix_filters lakeStore lakeLocation
      [["v1.metadata.json", "v2.metadata.json", "manifest/m1.avro"]] 1 ".json"
      (by decide) (by decide)).1.trans (by decide)⟩

/-- C2 (counterexample to the claim as stated): with the three keys of the
scenario and the suffix `/m1.avro`, the listed key `manifest/m1.avro` ends with
the suffix, yet its final path component `m1.avro` does not, and
`listFilesMatchSuffix` returns no key. -/
theorem listFilesMatchSuffix_leaves_out_key_ending_with_suffix :
    answersPages lakeStore lakeLocation none
      [["v1.metadata.json", "v2.metadata.json", "manifest/m1.avro"]] = true ∧
    (listFiles 1 lakeStore lakeLocation).outcome =
      .keys ["v1.metadata.json", "v2.metadata.json", "manifest/m1.avro"] ∧
    endsWith "manifest/m1.avro".data "/m1.avro".data = true ∧
    (listFilesMatchSuffix 1 lakeStore lakeLocation "/m1.avro").outcome = .keys [] := by
  decide

/-- C3: when the store answers the listing as the N pages `pages` chained by
continuation tokens (so N is at least 1), `listFiles` returns the concatenation
of the keys of the pages in page order, hence every key as often as the pages
hold it, and it issues exactly N requests: it stops at the first response
without a continuation token. Any step budget of at least N gives this
result. -/
theorem listFiles_concatenates_pages (store : RemoteStore) (location : Location)
    (pages : List (List ObjectKey)) (fuel : Nat)
    (h : answersPages store location none pages = true) (hfuel : pages.length ≤ fuel) :
    1 ≤ pages.length ∧
    (listFiles fuel store location).requests.length = pages.length ∧
    ∃ ks, (listFiles fuel store location).outcome = .keys ks ∧ ks = pages.flatten ∧
      ks.length = (pages.map List.length).sum ∧
      ∀ key, ks.count key = (pages.map (List.count key)).sum := by
  obtain ⟨hout, hreq⟩ := listPages_of_answersPages store location pages fuel none [] [] h hfuel
  refine ⟨?_, by simpa using hreq, pages.flatten, by simpa using hout, rfl, ?_, ?_⟩
  · cases pages with
    | nil => simp [answersPages] at h
    | cons p rest => simp
  · simp [List.length_flatten]
  · intro key
    simp [List.count_flatten]

/-- Witness of C3: a listing served as two pages, and a location with zero
objects, whose listing is the empty sequence and not an error. -/
theorem listFiles_concatenates_pages_witness :
    (answersPages lakeStorePaged lakeLocation none
        [["v1.metadata.json", "v2.metadata.json"], ["manifest/m1.avro"]] = true ∧
      (listFiles 2 lakeStorePaged lakeLocation).requests.length = 2) ∧
    (answersPages (fun _ _ => some ⟨[], none⟩) lakeLocation none [[]] = true ∧
      ∃ ks, (listFiles 1 (fun _ _ => some ⟨[], none⟩) lakeLocation).outcome = .keys ks ∧
        ks = [] ∧ ks.length = 0 ∧ ∀ key, ks.count key = 0) :=
  ⟨⟨by decide,
      (listFiles_concatenates_pages lakeStorePaged lakeLocation
        [["v1.metadata.json", "v2.metadata.json"], ["manifest/m1.avro"]] 2
        (by decide) (by decide)).2.1⟩,
    by decide,
    (listFiles_concatenates_pages (fun _ _ => some ⟨[], none⟩) lakeLocation [[]] 1
      (by decide) (by decide)).2.2⟩

/-- C7: when the store serves the pages `pages` and the page request after them
fails, `listFiles` and `listFilesMatchSuffix` end with a `RemoteListingError`
and hand no keys to the caller, not even those of the pages already fetched;
they issue one request per served page and one for the failed page, which is
not requested again. -/
theorem listing_fails_atomically (store : RemoteStore) (location : Location)
    (pages : List (List ObjectKey)) (fuel : Nat) (suffix : String)
    (h : failsAfterPages store location none pages = true) (hfuel : pages.length < fuel) :
    (listFiles fuel store location).outcome = .remoteListingError ∧
    (listFiles fuel store location).requests.length = pages.length + 1 ∧
    (listFilesMatchSuffix fuel store location suffix).outcome = .remoteListingError ∧
    (listFilesMatchSuffix fuel store location suffix).requests.length = pages.length + 1 ∧
    (∀ ks, (listFiles fuel store location).outcome ≠ .keys ks) ∧
    (∀ ks, (listFilesMatchSuffix fuel store location suffix).outcome ≠ .keys ks) := by
  obtain ⟨hout, hreq⟩ := listPages_of_failsAfterPages store location pages fuel none [] [] h hfuel
  have hout2 : (listFiles fuel store location).outcome = .remoteListingError := hout
  have hreq2 : (listFiles fuel store location).requests.length = pages.length + 1 := by
    simpa using hreq
  obtain ⟨hr, ho⟩ := listFilesMatchSuffix_run fuel store location suffix
  rw [hout2] at ho
  refine ⟨hout2, hreq2, ho, by rw [hr, hreq2], ?_, ?_⟩
  · intro ks hks
    rw [hout2] at hks
    cases hks
  · intro ks hks
    rw [ho] at hks
    cases hks

/-- Witness of C7: the first page is served with a token and the second page
request fails. -/
theorem listing_fails_atomically_witness :
    failsAfterPages lakeStoreBroken lakeLocation none
      [["v1.metadata.json", "v2.metadata.json"]] = true ∧
    (listFiles 5 lakeStoreBroken lakeLocation).outcome = .remoteListingError ∧
    (listFiles 5 lakeStoreBroken lakeLocation).requests.length = 2 :=
  ⟨by decide,
    (listing_fails_atomically lakeStoreBroken lakeLocation
      [["v1.metadata.json", "v2.metadata.json"]] 5 ".json" (by decide) (by decide)).1,
    (listing_fails_atomically lakeStoreBroken lakeLocation
      [["v1.metadata.json", "v2.metadata.json"]] 5 ".json" (by decide) (by decide)).2.1⟩

end S3DataLakeMetaReadHelper

end DB
